import Mathlib

/-! ## A model of JavaScript `Map` association tables -/

section MapModel

variable {κ α : Type} [DecidableEq κ]

/-- First-match lookup in an association list (`Map.get`). -/
def mapLookup : List (κ × α) → κ → Option α
  | [], _ => none
  | (k, v) :: rest, key => if k = key then some v else mapLookup rest key

/-- Model of `Map.set`: replace in place if the key is present, else append. -/
def mapSet : List (κ × α) → κ → α → List (κ × α)
  | [], key, val => [(key, val)]
  | (k, v) :: rest, key, val =>
    if k = key then (key, val) :: rest else (k, v) :: mapSet rest key val

/-- Model of `Map.delete`: drop the entry carrying the key (keys of a `Map` are
unique, so dropping every match is the same operation). -/
def mapDelete : List (κ × α) → κ → List (κ × α)
  | [], _ => []
  | (k, v) :: rest, key =>
    if k = key then mapDelete rest key else (k, v) :: mapDelete rest key

end MapModel

/-! ## Data model and operations of `RAGService.ts` -/

/-- An embedding vector (`number[]`). -/
abbrev Vec := List ℚ

/-- Caller-supplied document metadata (`doc.metadata`): the fields the service
reads (`source`, `timestamp`) plus an inert remainder. -/
structure Meta where
  source : Option String
  timestamp : Option Nat
  extra : List (String × String)
deriving DecidableEq

/-- Model of `RAGDocument`: an empty `id` plays the role of a missing/falsy id. -/
structure Doc where
  id : String
  content : String
  knowledgeBase : String
  metadata : Option Meta
deriving DecidableEq

/-- One stored chunk, as written into `chunkMap[currentIdx]`. -/
structure Chunk where
  id : String
  text : String
  source : Option String
  timestamp : Nat
  metadata : Option Meta
deriving DecidableEq

/-- Model of `RAGResult`: the fields of the result object built by `search`. -/
structure RAGResult where
  id : String
  content : String
  score : ℚ
  source : Option String
  timestamp : Option Nat
deriving DecidableEq

/-- The observable state of a `HierarchicalNSW` index: dimension, capacity
(`getMaxElements`), stored points in label order (`getCurrentCount` is the
length; labels are always assigned consecutively from `getCurrentCount()`),
and the `ef` search parameter. -/
structure HNSW where
  dim : Nat
  capacity : Nat
  points : List Vec
  ef : Nat
deriving DecidableEq

/-- Model of `addPoint`: appends at the next label; fails (`CapacityExceeded`) when
the index is full. -/
def hnswAddPoint (i : HNSW) (v : Vec) : Option HNSW :=
  if i.points.length < i.capacity then some { i with points := i.points ++ [v] } else none

/-- The conversion `1 / (1 + distance)` — the distance→similarity conversion in `search`. -/
def similarity (distance : ℚ) : ℚ := 1 / (1 + distance)

/-- Cache key: `${knowledgeBase}-${md5(JSON.stringify(queryVector))}-${k}`,
modelled as the triple itself (the hash is a deterministic fingerprint). -/
structure CacheKey where
  kb : String
  queryVector : Vec
  k : Nat
deriving DecidableEq

structure CacheEntry where
  key : CacheKey
  result : List RAGResult
  timestamp : Nat
deriving DecidableEq

/-- Model of the `SearchCache` state: entry list in `Map` insertion order plus counters
and configuration. -/
structure SearchCache where
  entries : List CacheEntry
  hits : Nat
  misses : Nat
  maxSize : Nat
  ttl : Nat
deriving DecidableEq

def entryLookup : List CacheEntry → CacheKey → Option CacheEntry
  | [], _ => none
  | e :: rest, key => if e.key = key then some e else entryLookup rest key

def entryDelete : List CacheEntry → CacheKey → List CacheEntry
  | [], _ => []
  | e :: rest, key => if e.key = key then rest else e :: entryDelete rest key

def entrySet : List CacheEntry → CacheKey → List RAGResult → Nat → List CacheEntry
  | [], key, result, now => [{ key := key, result := result, timestamp := now }]
  | e :: rest, key, result, now =>
    if e.key = key then { key := key, result := result, timestamp := now } :: rest
    else e :: entrySet rest key result now

/-- Model of `SearchCache.get`: a hit leaves the entries untouched and bumps `hits`;
otherwise the (possibly expired) entry is deleted and `misses` is bumped. -/
def cacheGet (c : SearchCache) (key : CacheKey) (now : Nat) :
    Option (List RAGResult) × SearchCache :=
  match entryLookup c.entries key with
  | some e =>
    if now - e.timestamp < c.ttl then
      (some e.result, { c with hits := c.hits + 1 })
    else
      (none, { c with entries := entryDelete c.entries key, misses := c.misses + 1 })
  | none => (none, { c with entries := entryDelete c.entries key, misses := c.misses + 1 })

/-- Model of `SearchCache.set`: when `size >= maxSize`, the first key in insertion
order is deleted (dropping the first entry — `Map` keys are unique), then the
new entry is stored with `Map.set`. -/
def cacheSet (c : SearchCache) (key : CacheKey) (result : List RAGResult) (now : Nat) :
    SearchCache :=
  let entries1 := if c.maxSize ≤ c.entries.length then c.entries.tail else c.entries
  { c with entries := entrySet entries1 key result now }

/-- A persisted `<name>.chunks.json` file: either parseable JSON holding a
chunk map, or malformed content on which `JSON.parse` throws. -/
inductive ChunkFile where
  | valid (m : List (Nat × Chunk))
  | malformed
deriving DecidableEq

/-- The working directory: `<name>.hnsw` and `<name>.chunks.json` tables. -/
structure Disk where
  hnsw : List (String × HNSW)
  chunks : List (String × ChunkFile)
deriving DecidableEq

/-- The whole `RAGService` state: open indices, chunk maps, search cache,
metrics (`stats`), persisted files, and the configured embedding dimension
and `efSearch`. -/
structure RAGState where
  indices : List (String × HNSW)
  chunkMaps : List (String × List (Nat × Chunk))
  cache : SearchCache
  totalSearches : Nat
  avgSearchTime : ℚ
  disk : Disk
  dims : Nat
  efSearch : Nat
deriving DecidableEq

/-- Model of `RAGSearchOptions` (with `k?: number`; `none` = omitted). -/
structure SearchOptions where
  query : String
  knowledgeBase : String
  k : Option Nat
  similarityThreshold : ℚ
deriving DecidableEq

/-- The defaulting `options.k || 10`: an omitted or zero (falsy) `k` becomes 10. -/
def kDefault (k : Option Nat) : Nat :=
  match k with
  | none => 10
  | some 0 => 10
  | some n => n

/-- The effective `k` computation in `search` (lines 222–228): clamp the
requested count by `currentCount || 1`, then by `getMaxElements()` when that
is available and nonzero, then force at least 1. -/
def effK (kInput currentCount maxElements : Nat) : Nat :=
  max 1
    (if maxElements ≠ 0 ∧ maxElements < min kInput (if currentCount = 0 then 1 else currentCount)
     then maxElements
     else min kInput (if currentCount = 0 then 1 else currentCount))

/-- Why a load attempt can throw inside `getOrLoadIndex`'s `try` block. -/
inductive LoadErr where
  | indexFileMissing
  | chunkFileMissing
  | chunkJsonMalformed
deriving DecidableEq

/-- The body of `getOrLoadIndex`'s `try` block: read `<kb>.hnsw`, read
`<kb>.chunks.json`, `JSON.parse` it.  Any failure throws. -/
def loadAttempt (s : RAGState) (kb : String) :
    Except LoadErr (HNSW × List (Nat × Chunk)) :=
  match mapLookup s.disk.hnsw kb with
  | none => .error .indexFileMissing
  | some stored =>
    match mapLookup s.disk.chunks kb with
    | none => .error .chunkFileMissing
    | some .malformed => .error .chunkJsonMalformed
    | some (.valid m) => .ok ({ stored with ef := s.efSearch }, m)

/-- Model of `getOrLoadIndex`: return the in-memory index if open; else run the load
attempt, catching every error by returning `null` (the comment in the catch
block assumes the index simply does not exist). -/
def getOrLoadIndex (s : RAGState) (kb : String) : Option HNSW × RAGState :=
  match mapLookup s.indices kb with
  | some index => (some index, s)
  | none =>
    match loadAttempt s kb with
    | .error _ => (none, s)
    | .ok (index, m) =>
      (some index,
        { s with indices := mapSet s.indices kb index,
                 chunkMaps := mapSet s.chunkMaps kb m })

/-- The chunk object stored by `addDocumentsToKB` at ordinal `idx`
(`docs[i].id || doc-idx`, `metadata?.timestamp || new Date()`). -/
def mkChunk (now idx : Nat) (d : Doc) : Chunk :=
  { id := if d.id = "" then "doc-" ++ toString idx else d.id
    text := d.content
    source := d.metadata.bind (fun m => m.source)
    timestamp :=
      match d.metadata with
      | none => now
      | some m =>
        match m.timestamp with
        | none => now
        | some 0 => now
        | some t => t
    metadata := d.metadata }

/-- The `RAGResult` built from one `(neighborIdx, distance)` pair
(`chunk?.id || chunk-idx`, `chunk?.text || ''`, `1 / (1 + distance)`). -/
def toResult (chunkMap : List (Nat × Chunk)) (nd : Nat × ℚ) : RAGResult :=
  match mapLookup chunkMap nd.1 with
  | some chunk =>
    { id := if chunk.id = "" then "chunk-" ++ toString nd.1 else chunk.id
      content := chunk.text
      score := similarity nd.2
      source := chunk.source
      timestamp := some chunk.timestamp }
  | none =>
    { id := "chunk-" ++ toString nd.1
      content := ""
      score := similarity nd.2
      source := none
      timestamp := none }

/-- Model of `recordMetric('search', duration)`: bump the counter and fold the
duration into the running average. -/
def recordSearchMetric (s : RAGState) (dur : Nat) : RAGState :=
  let n := s.totalSearches + 1
  { s with totalSearches := n
           avgSearchTime := (s.avgSearchTime * (n - 1 : ℕ) + (dur : ℚ)) / (n : ℚ) }

/-- The metrics block reported by `getStatus`. -/
structure StatusMetrics where
  totalSearches : Nat
  avgSearchTime : ℚ
  cacheSize : Nat
deriving DecidableEq

def getStatus (s : RAGState) : StatusMetrics :=
  { totalSearches := s.totalSearches
    avgSearchTime := s.avgSearchTime
    cacheSize := s.cache.entries.length }

/-- The outcome of one `search` call.  `queried` instruments the single
`index.searchKnn` invocation: `some (effectiveK, currentCount, maxElements)`
when the index was queried, `none` otherwise. -/
structure SearchOutcome where
  results : List RAGResult
  state : RAGState
  queried : Option (Nat × Nat × Nat)
deriving DecidableEq

/-- Model of `RAGService.search`, with the embedding provider and the native
`searchKnn` supplied as oracles and the two `Date.now()` readings supplied as
`now` (start, used for cache timestamps) and `dur` (measured duration). -/
def searchRun (embed : String → Vec) (knn : HNSW → Vec → Nat → List (Nat × ℚ))
    (now dur : Nat) (opts : SearchOptions) (s : RAGState) : SearchOutcome :=
  let kInput := kDefault opts.k
  let queryVector := embed opts.query
  let key : CacheKey := { kb := opts.knowledgeBase, queryVector := queryVector, k := kInput }
  match cacheGet s.cache key now with
  | (some cached, cache') =>
    { results := cached, state := { s with cache := cache' }, queried := none }
  | (none, cache') =>
    match getOrLoadIndex { s with cache := cache' } opts.knowledgeBase with
    | (none, s2) => { results := [], state := s2, queried := none }
    | (some index, s2) =>
      let currentCount := index.points.length
      let effectiveK := effK kInput currentCount index.capacity
      let knnRes := knn index queryVector effectiveK
      let chunkMap := (mapLookup s2.chunkMaps opts.knowledgeBase).getD []
      let results :=
        (knnRes.map (toResult chunkMap)).filter
          (fun r => opts.similarityThreshold ≤ r.score)
      let s3 := { s2 with cache := cacheSet s2.cache key results now }
      { results := results
        state := recordSearchMetric s3 dur
        queried := some (effectiveK, currentCount, index.capacity) }

/-- The insertion loop of `addDocumentsToKB` (lines 455–470): add each
embedding at the next ordinal and record its chunk. -/
def insertAll (now : Nat) :
    HNSW → List (Nat × Chunk) → List (Doc × Vec) → Nat →
    Option (HNSW × List (Nat × Chunk))
  | index, cm, [], _ => some (index, cm)
  | index, cm, (d, v) :: rest, idx =>
    match hnswAddPoint index v with
    | none => none
    | some index' => insertAll now index' (mapSet cm idx (mkChunk now idx d)) rest (idx + 1)

/-- Model of `addDocumentsToKB`: embed the batch, create the index with capacity
`max(docs.length + 256, 1024)` if absent, else resize to
`max(required + 256, floor(capacity * 1.5))` when the batch would overflow,
run the insertion loop from `getCurrentCount()`, then persist index and
chunk map. -/
def addDocumentsToKB (embed : String → Vec) (now : Nat) (kb : String)
    (docs : List Doc) (s : RAGState) : Option RAGState :=
  let embeddings := docs.map (fun d => embed d.content)
  let chunkMap := (mapLookup s.chunkMaps kb).getD []
  let index0 : HNSW :=
    match mapLookup s.indices kb with
    | none =>
      { dim := s.dims, capacity := max (docs.length + 256) 1024, points := [], ef := s.efSearch }
    | some index =>
      let required := index.points.length + embeddings.length
      if index.capacity < required then
        { index with capacity := max (required + 256) (index.capacity * 3 / 2) }
      else index
  match insertAll now index0 chunkMap (docs.zip embeddings) index0.points.length with
  | none => none
  | some (index1, chunkMap1) =>
    some { s with
      indices := mapSet s.indices kb index1
      chunkMaps := mapSet s.chunkMaps kb chunkMap1
      disk := { hnsw := mapSet s.disk.hnsw kb index1
                chunks := mapSet s.disk.chunks kb (ChunkFile.valid chunkMap1) } }

/-- The grouping loop of `addDocuments`: a `Map<string, RAGDocument[]>`
filled in input order. -/
def groupDocs (docs : List Doc) : List (String × List Doc) :=
  docs.foldl
    (fun acc d =>
      mapSet acc d.knowledgeBase ((mapLookup acc d.knowledgeBase).getD [] ++ [d]))
    []

/-- Model of `addDocuments`: return early on an empty batch, else group by knowledge
base and add each group in turn. -/
def addDocuments (embed : String → Vec) (now : Nat) (docs : List Doc)
    (s : RAGState) : Option RAGState :=
  if docs.isEmpty then some s
  else (groupDocs docs).foldlM (fun st p => addDocumentsToKB embed now p.1 p.2 st) s

/-- Model of `removeDocument`: only logs — the state is untouched. -/
def removeDocument (_id : String) (s : RAGState) : RAGState := s

/-- Model of `Partial<RAGDocument>` as consumed by `updateDocument`. -/
structure DocPatch where
  knowledgeBase : Option String
  content : Option String
  metadata : Option Meta
deriving DecidableEq

/-- Model of `updateDocument`: when a knowledge base is given, remove (a no-op) then
re-add the content, if any, under the same id. -/
def updateDocument (embed : String → Vec) (now : Nat) (id : String)
    (patch : DocPatch) (s : RAGState) : Option RAGState :=
  match patch.knowledgeBase with
  | none => some s
  | some kb =>
    let s1 := removeDocument id s
    match patch.content with
    | none => some s1
    | some content =>
      addDocuments embed now
        [{ id := id, content := content, knowledgeBase := kb, metadata := patch.metadata }] s1

/-- Model of `removeKnowledgeBase`: drop the in-memory entries, then
`unlink(<name>.hnsw); unlink(<name>.chunks.json)` inside one `try` whose
`catch` swallows the error — so a failing first unlink skips the second. -/
def removeKnowledgeBase (name : String) (s : RAGState) : RAGState :=
  let indices := mapDelete s.indices name
  let chunkMaps := mapDelete s.chunkMaps name
  let disk := s.disk
  let disk' :=
    if (mapLookup disk.hnsw name).isSome then
      let d1 : Disk := { disk with hnsw := mapDelete disk.hnsw name }
      if (mapLookup d1.chunks name).isSome then
        { d1 with chunks := mapDelete d1.chunks name }
      else d1
    else disk
  { s with indices := indices, chunkMaps := chunkMaps, disk := disk' }

/-- Model of `shutdown`: save every open index, then clear cache and in-memory
tables. -/
def shutdown (s : RAGState) : RAGState :=
  let disk :=
    s.indices.foldl (fun d p => { d with hnsw := mapSet d.hnsw p.1 p.2 }) s.disk
  { s with disk := disk
           indices := []
           chunkMaps := []
           cache := { s.cache with entries := [], hits := 0, misses := 0 } }

/-- The state right after construction and `initialize`: empty tables, empty
working directory. -/
def initState (dims ef maxSize ttl : Nat) : RAGState :=
  { indices := []
    chunkMaps := []
    cache := { entries := [], hits := 0, misses := 0, maxSize := maxSize, ttl := ttl }
    totalSearches := 0
    avgSearchTime := 0
    disk := { hnsw := [], chunks := [] }
    dims := dims
    efSearch := ef }

/-- States reachable through the public operation surface, for arbitrary
oracle behaviour and call arguments. -/
inductive Reachable : RAGState → Prop where
  | init (dims ef maxSize ttl : Nat) : Reachable (initState dims ef maxSize ttl)
  | config (dims' ef' : Nat) {s : RAGState} :
      Reachable s → Reachable { s with dims := dims', efSearch := ef' }
  | search (embed : String → Vec) (knn : HNSW → Vec → Nat → List (Nat × ℚ))
      (now dur : Nat) (opts : SearchOptions) {s : RAGState} :
      Reachable s → Reachable (searchRun embed knn now dur opts s).state
  | add (embed : String → Vec) (now : Nat) (docs : List Doc) {s s' : RAGState} :
      Reachable s → addDocuments embed now docs s = some s' → Reachable s'
  | update (embed : String → Vec) (now : Nat) (id : String) (patch : DocPatch)
      {s s' : RAGState} :
      Reachable s → updateDocument embed now id patch s = some s' → Reachable s'
  | removeDoc (id : String) {s : RAGState} :
      Reachable s → Reachable (removeDocument id s)
  | removeKB (name : String) {s : RAGState} :
      Reachable s → Reachable (removeKnowledgeBase name s)
  | shut {s : RAGState} : Reachable s → Reachable (shutdown s)

/-! ## Derived definitions used by the specifications -/

/-- The chunk-map writes that the insertion loop performs, as a fold. -/
def cmWrites (now : Nat) : Nat → List (Doc × Vec) → List (Nat × Chunk) → List (Nat × Chunk)
  | _, [], cm => cm
  | idx, (d, _) :: rest, cm =>
    cmWrites now (idx + 1) rest (mapSet cm idx (mkChunk now idx d))

/-- The chunk entries the insertion loop appends, in ordinal order. -/
def chunkEntries (now : Nat) : Nat → List (Doc × Vec) → List (Nat × Chunk)
  | _, [] => []
  | idx, (d, _) :: rest => (idx, mkChunk now idx d) :: chunkEntries now (idx + 1) rest

/-- The stored points of the open index for `kb` (empty when absent). -/
def oldPoints (s : RAGState) (kb : String) : List Vec :=
  match mapLookup s.indices kb with
  | none => []
  | some i => i.points

/-- The open chunk map for `kb` (`this.chunkMaps.get(kb) || {}`). -/
def oldCm (s : RAGState) (kb : String) : List (Nat × Chunk) :=
  (mapLookup s.chunkMaps kb).getD []

/-- The capacity `addDocumentsToKB` ends up with for a batch of `n`
documents: the creation formula `max(n + 256, 1024)` when the knowledge base
is absent, else the growth formula `max(required + 256, floor(cap * 1.5))`
exactly when the batch would overflow. -/
def newCapacity (s : RAGState) (kb : String) (n : Nat) : Nat :=
  match mapLookup s.indices kb with
  | none => max (n + 256) 1024
  | some i =>
    if i.capacity < i.points.length + n then
      max (i.points.length + n + 256) (i.capacity * 3 / 2)
    else i.capacity

/-- For every knowledge base, the ordinal keys of its open chunk map are
exactly `{0, …, currentCount − 1}` of its open index (absent entries count
as empty / zero). -/
def AllAligned (s : RAGState) : Prop :=
  ∀ kb j, j ∈ (oldCm s kb).map Prod.fst ↔ j < (oldPoints s kb).length

/-- What is always true of an index the service holds: at least one stored
point, and no more points than capacity. -/
def hnswOk (i : HNSW) : Prop := 1 ≤ i.points.length ∧ i.points.length ≤ i.capacity

/-- Every open index and every persisted index file is well-shaped. -/
def IndexInv (s : RAGState) : Prop :=
  (∀ p ∈ s.indices, hnswOk p.2) ∧ ∀ p ∈ s.disk.hnsw, hnswOk p.2

/-- The interface contract of the opaque ANN `searchKnn`: at most `k`
neighbors, ordered by ascending distance, with nonnegative distances. -/
def KnnOk (knn : HNSW → Vec → Nat → List (Nat × ℚ)) : Prop :=
  ∀ i v k, (knn i v k).length ≤ k ∧
    ((knn i v k).map Prod.snd).Sorted (· ≤ ·) ∧
    ∀ p ∈ knn i v k, 0 ≤ p.2

/-! ## Concrete oracles and states used for witnesses and counterexamples -/

/-- A deterministic embedding oracle. -/
def embedDemo : String → Vec := fun t => [(t.length : ℚ)]

/-- A `searchKnn` oracle honouring the interface contract: returns the first
`min k currentCount` labels (at most two) with distances `0, 1`. -/
def knnDemo : HNSW → Vec → Nat → List (Nat × ℚ) := fun i _ k =>
  if min k i.points.length = 0 then []
  else if min k i.points.length = 1 then [(0, 0)]
  else [(0, 0), (1, 1)]

def demoInit : RAGState := initState 1 150 100 60000

def docDemo : Doc := { id := "d1", content := "x", knowledgeBase := "kb", metadata := none }

def demoChunk0 : Chunk := { id := "d0", text := "t0", source := none, timestamp := 1, metadata := none }

def demoChunk1 : Chunk := { id := "d1", text := "t1", source := none, timestamp := 1, metadata := none }

def demoIdx2 : HNSW := { dim := 1, capacity := 1024, points := [[1], [2]], ef := 150 }

def emptyCache : SearchCache := { entries := [], hits := 0, misses := 0, maxSize := 100, ttl := 60000 }

/-- A service state with one open knowledge base `"kb"` holding two chunks. -/
def kbState : RAGState :=
  { indices := [("kb", demoIdx2)]
    chunkMaps := [("kb", [(0, demoChunk0), (1, demoChunk1)])]
    cache := emptyCache
    totalSearches := 0
    avgSearchTime := 0
    disk := { hnsw := [("kb", demoIdx2)]
              chunks := [("kb", ChunkFile.valid [(0, demoChunk0), (1, demoChunk1)])] }
    dims := 1
    efSearch := 150 }

def opts5 : SearchOptions := { query := "q", knowledgeBase := "kb", k := some 5, similarityThreshold := 0 }

def optsTh : SearchOptions := { query := "q", knowledgeBase := "kb", k := some 5, similarityThreshold := 3 / 4 }

def opts0 : SearchOptions := { query := "q", knowledgeBase := "kb", k := some 0, similarityThreshold := 0 }

def opts3 : SearchOptions := { query := "q", knowledgeBase := "kb", k := some 3, similarityThreshold := 0 }

/-- State `kbState` after a first search with threshold 0 has cached its results. -/
def c1CacheState : RAGState := (searchRun embedDemo knnDemo 0 0 opts5 kbState).state

/-- Persisted index file present, chunk-map file malformed. -/
def c2State : RAGState :=
  { demoInit with disk := { hnsw := [("kb", demoIdx2)], chunks := [("kb", ChunkFile.malformed)] } }

/-- Index file already missing while the chunks file exists. -/
def c3StateA : RAGState :=
  { demoInit with disk := { hnsw := [], chunks := [("kb", ChunkFile.valid [(0, demoChunk0)])] } }

def c4State : RAGState := (addDocumentsToKB embedDemo 0 "kb" [docDemo] demoInit).getD demoInit

def c8State : RAGState := (addDocuments embedDemo 0 [docDemo] demoInit).getD demoInit

/-- A full small index (capacity 2, 2 points) to exercise the growth path. -/
def smallIdx : HNSW := { dim := 1, capacity := 2, points := [[1], [2]], ef := 150 }

def smallState : RAGState := { kbState with indices := [("kb", smallIdx)] }

def patchDemo : DocPatch := { knowledgeBase := some "kb", content := some "new", metadata := none }

def docX : Doc := { id := "dX", content := "new", knowledgeBase := "kb", metadata := none }

def resA : RAGResult := { id := "a", content := "A", score := 1, source := none, timestamp := none }

def resB : RAGResult := { id := "b", content := "B", score := 1 / 2, source := none, timestamp := none }

def keyA : CacheKey := { kb := "kb", queryVector := [1], k := 5 }

def keyB : CacheKey := { kb := "kb", queryVector := [2], k := 5 }

def keyC : CacheKey := { kb := "kb", queryVector := [3], k := 5 }

/-- A cache at capacity (2 entries, `maxSize` 2). -/
def cacheDemo : SearchCache :=
  { entries := [ { key := keyA, result := [resA], timestamp := 0 }
               , { key := keyB, result := [resB], timestamp := 0 } ]
    hits := 0
    misses := 0
    maxSize := 2
    ttl := 60000 }

def c10Cache : SearchCache :=
  { entries := [ { key := keyA, result := [resA], timestamp := 0 } ]
    hits := 0
    misses := 0
    maxSize := 100
    ttl := 60000 }

/-- State `kbState` with a warm cache entry for `(kb = "kb", vector [1], k = 5)`. -/
def c10State : RAGState := { kbState with cache := c10Cache }

/-! ## Lemmas about the `Map` model -/

section MapModelLemmas

variable {κ α : Type} [DecidableEq κ]

theorem mapLookup_set_self (l : List (κ × α)) (k : κ) (v : α) :
    mapLookup (mapSet l k v) k = some v := by
  induction l with
  | nil => simp [mapSet, mapLookup]
  | cons p rest ih =>
    by_cases h : p.1 = k
    · simp [mapSet, h, mapLookup]
    · simp [mapSet, h, mapLookup, ih]

theorem mapLookup_set_other (l : List (κ × α)) (k k' : κ) (v : α) (h : k ≠ k') :
    mapLookup (mapSet l k v) k' = mapLookup l k' := by
  induction l with
  | nil => simp [mapSet, mapLookup, h]
  | cons p rest ih =>
    by_cases hp : p.1 = k
    · simp [mapSet, hp, mapLookup, h]
    · simp [mapSet, hp, mapLookup, ih]

theorem mapLookup_delete_self (l : List (κ × α)) (k : κ) :
    mapLookup (mapDelete l k) k = none := by
  induction l with
  | nil => simp [mapDelete, mapLookup]
  | cons p rest ih =>
    by_cases hp : p.1 = k
    · simpa [mapDelete, hp] using ih
    · simp [mapDelete, hp, mapLookup, ih]

theorem mapLookup_delete_other (l : List (κ × α)) (k k' : κ) (h : k ≠ k') :
    mapLookup (mapDelete l k) k' = mapLookup l k' := by
  induction l with
  | nil => simp [mapDelete, mapLookup]
  | cons p rest ih =>
    have hsym : k' ≠ k := fun hh => h hh.symm
    by_cases hp : p.1 = k
    · have hne : p.1 ≠ k' := by rw [hp]; exact h
      simp [mapDelete, hp, mapLookup, hne, ih, h]
    · by_cases hq : p.1 = k'
      · simp [mapDelete, hp, hq, mapLookup, hsym]
      · simp [mapDelete, hp, hq, mapLookup, ih]

theorem mem_mapSet {l : List (κ × α)} {k : κ} {v : α} {p : κ × α}
    (h : p ∈ mapSet l k v) : p ∈ l ∨ p = (k, v) := by
  induction l with
  | nil => simp [mapSet] at h; simp [h]
  | cons q rest ih =>
    by_cases hq : q.1 = k
    · simp [mapSet, hq] at h
      rcases h with h | h
      · right; simp [h]
      · left; simp [h]
    · simp [mapSet, hq] at h
      rcases h with h | h
      · left; simp [h]
      · rcases ih h with h' | h'
        · left; simp [h']
        · right; exact h'

theorem mem_mapDelete {l : List (κ × α)} {k : κ} {p : κ × α}
    (h : p ∈ mapDelete l k) : p ∈ l := by
  induction l with
  | nil => simp [mapDelete] at h
  | cons q rest ih =>
    by_cases hq : q.1 = k
    · simp [mapDelete, hq] at h
      exact List.mem_cons_of_mem _ (ih h)
    · simp [mapDelete, hq] at h
      rcases h with h | h
      · simp [h]
      · exact List.mem_cons_of_mem _ (ih h)

theorem mapLookup_mem {l : List (κ × α)} {k : κ} {v : α}
    (h : mapLookup l k = some v) : (k, v) ∈ l := by
  induction l with
  | nil => simp [mapLookup] at h
  | cons p rest ih =>
    by_cases hp : p.1 = k
    · simp [mapLookup, hp] at h
      have : p = (k, v) := by
        cases p with
        | mk a b => simp at hp h; simp [hp, h]
      rw [← this]
      exact List.mem_cons_self _ _
    · simp [mapLookup, hp] at h
      right
      exact ih h

end MapModelLemmas

/-! ## Basic lemmas -/

theorem kDefault_pos (k : Option Nat) : 1 ≤ kDefault k := by
  cases k with
  | none => simp [kDefault]
  | some n => cases n with
    | zero => simp [kDefault]
    | succ m => simp [kDefault]

theorem effK_le {k : Nat} (hk : 1 ≤ k) (c cap : Nat) : effK k c cap ≤ k := by
  unfold effK
  split_ifs <;> omega

theorem effK_clamp {k c cap : Nat} (hk : 1 ≤ k) (hcc : c ≤ cap) :
    effK k c cap = max 1 (min k (min c cap)) := by
  unfold effK
  split_ifs <;> omega

theorem similarity_pos {d : ℚ} (h : 0 ≤ d) : 0 < similarity d := by
  unfold similarity
  have h1 : (0 : ℚ) < 1 + d := by linarith
  exact div_pos one_pos h1

theorem similarity_le_one {d : ℚ} (h : 0 ≤ d) : similarity d ≤ 1 := by
  unfold similarity
  have h1 : (0 : ℚ) < 1 + d := by linarith
  rw [div_le_one h1]
  linarith

theorem similarity_anti {a b : ℚ} (ha : 0 ≤ a) (hab : a ≤ b) :
    similarity b ≤ similarity a := by
  unfold similarity
  have h1 : (0 : ℚ) < 1 + a := by linarith
  exact one_div_le_one_div_of_le h1 (by linarith)

theorem similarity_strictAnti {a b : ℚ} (ha : 0 ≤ a) (hab : a < b) :
    similarity b < similarity a := by
  unfold similarity
  have h1 : (0 : ℚ) < 1 + a := by linarith
  exact one_div_lt_one_div_of_lt h1 (by linarith)

theorem toResult_score (cm : List (Nat × Chunk)) (nd : Nat × ℚ) :
    (toResult cm nd).score = similarity nd.2 := by
  unfold toResult
  cases h : mapLookup cm nd.1 <;> simp [h]

theorem cacheGet_hit_state {c : SearchCache} {key : CacheKey} {now : Nat}
    {r : List RAGResult} {c' : SearchCache}
    (h : cacheGet c key now = (some r, c')) :
    c' = { c with hits := c.hits + 1 } := by
  unfold cacheGet at h
  cases he : entryLookup c.entries key with
  | none => simp [he] at h
  | some e =>
    by_cases ht : now - e.timestamp < c.ttl
    · simp [he, ht] at h
      exact h.2.symm
    · simp [he, ht] at h

theorem entrySet_fresh (l : List CacheEntry) (k : CacheKey) (r : List RAGResult) (t : Nat)
    (h : ∀ e ∈ l, e.key ≠ k) :
    entrySet l k r t = l ++ [{ key := k, result := r, timestamp := t }] := by
  induction l with
  | nil => simp [entrySet]
  | cons e rest ih =>
    have he : e.key ≠ k := h e (by simp)
    simp [entrySet, he]
    exact ih (fun e' h' => h e' (by simp [h']))

theorem mapSet_forall {κ α : Type} [DecidableEq κ] {l : List (κ × α)} {k : κ} {v : α}
    {P : α → Prop} (hl : ∀ p ∈ l, P p.2) (hv : P v) :
    ∀ p ∈ mapSet l k v, P p.2 := by
  intro p hp
  rcases mem_mapSet hp with h | h
  · exact hl p h
  · rw [h]
    exact hv

theorem mapSet_fresh {κ α : Type} [DecidableEq κ] (l : List (κ × α)) (k : κ) (v : α)
    (h : ∀ p ∈ l, p.1 ≠ k) : mapSet l k v = l ++ [(k, v)] := by
  induction l with
  | nil => simp [mapSet]
  | cons q rest ih =>
    have hq : q.1 ≠ k := h q (by simp)
    simp [mapSet, hq]
    exact ih (fun p hp => h p (by simp [hp]))

theorem zip_map_snd {α β : Type} (l : List α) (f : α → β) :
    (l.zip (l.map f)).map Prod.snd = l.map f := by
  induction l with
  | nil => simp
  | cons a rest ih => simp [ih]

theorem zip_map_length {α β : Type} (l : List α) (f : α → β) :
    (l.zip (l.map f)).length = l.length := by
  simp

/-! ## The insertion loop and `addDocumentsToKB`, characterized -/

theorem chunkEntries_mem_keys (now : Nat) (l : List (Doc × Vec)) :
    ∀ idx j, j ∈ (chunkEntries now idx l).map Prod.fst ↔ idx ≤ j ∧ j < idx + l.length := by
  induction l with
  | nil =>
    intro idx j
    simp [chunkEntries]
  | cons dv rest ih =>
    intro idx j
    obtain ⟨d, v⟩ := dv
    simp [chunkEntries, ih (idx + 1) j]
    omega

theorem cmWrites_append (now : Nat) (l : List (Doc × Vec)) :
    ∀ (idx : Nat) (cm : List (Nat × Chunk)), (∀ p ∈ cm, p.1 < idx) →
      cmWrites now idx l cm = cm ++ chunkEntries now idx l := by
  induction l with
  | nil =>
    intro idx cm _
    simp [cmWrites, chunkEntries]
  | cons dv rest ih =>
    intro idx cm hcm
    obtain ⟨d, v⟩ := dv
    have hfresh : ∀ p ∈ cm, p.1 ≠ idx := fun p hp => Nat.ne_of_lt (hcm p hp)
    have hstep : ∀ p ∈ cm ++ [(idx, mkChunk now idx d)], p.1 < idx + 1 := by
      intro p hp
      rcases List.mem_append.mp hp with h | h
      · exact Nat.lt_succ_of_lt (hcm p h)
      · simp at h
        rw [h]
        omega
    calc cmWrites now idx ((d, v) :: rest) cm
        = cmWrites now (idx + 1) rest (mapSet cm idx (mkChunk now idx d)) := by
          simp [cmWrites]
      _ = cmWrites now (idx + 1) rest (cm ++ [(idx, mkChunk now idx d)]) := by
          rw [mapSet_fresh cm idx _ hfresh]
      _ = (cm ++ [(idx, mkChunk now idx d)]) ++ chunkEntries now (idx + 1) rest := by
          exact ih (idx + 1) _ hstep
      _ = cm ++ chunkEntries now idx ((d, v) :: rest) := by
          simp [chunkEntries]

theorem insertAll_eq (now : Nat) (l : List (Doc × Vec)) :
    ∀ (i : HNSW) (cm : List (Nat × Chunk)) (idx : Nat),
      i.points.length = idx → idx + l.length ≤ i.capacity →
      insertAll now i cm l idx =
        some ({ i with points := i.points ++ l.map Prod.snd }, cmWrites now idx l cm) := by
  induction l with
  | nil =>
    intro i cm idx hlen hcap
    simp [insertAll, cmWrites]
  | cons dv rest ih =>
    intro i cm idx hlen hcap
    obtain ⟨d, v⟩ := dv
    have hlt : i.points.length < i.capacity := by
      simp at hcap
      omega
    have hadd : hnswAddPoint i v = some { i with points := i.points ++ [v] } := by
      unfold hnswAddPoint
      rw [if_pos hlt]
    have hlen' : ({ i with points := i.points ++ [v] } : HNSW).points.length = idx + 1 := by
      simp [hlen]
    have hcap' : idx + 1 + rest.length ≤ ({ i with points := i.points ++ [v] } : HNSW).capacity := by
      simp at hcap ⊢
      omega
    calc insertAll now i cm ((d, v) :: rest) idx
        = insertAll now { i with points := i.points ++ [v] }
            (mapSet cm idx (mkChunk now idx d)) rest (idx + 1) := by
          simp [insertAll, hadd]
      _ = some ({ i with points := (i.points ++ [v]) ++ rest.map Prod.snd },
            cmWrites now (idx + 1) rest (mapSet cm idx (mkChunk now idx d))) := by
          exact ih _ _ _ hlen' hcap'
      _ = some ({ i with points := i.points ++ ((d, v) :: rest).map Prod.snd },
            cmWrites now idx ((d, v) :: rest) cm) := by
          simp [cmWrites, List.append_assoc]

theorem addKB_spec (embed : String → Vec) (now : Nat) (kb : String)
    (docs : List Doc) (s : RAGState) :
    ∃ i1 cm1,
      addDocumentsToKB embed now kb docs s =
        some { s with
          indices := mapSet s.indices kb i1
          chunkMaps := mapSet s.chunkMaps kb cm1
          disk := { hnsw := mapSet s.disk.hnsw kb i1
                    chunks := mapSet s.disk.chunks kb (ChunkFile.valid cm1) } } ∧
      i1.points = oldPoints s kb ++ docs.map (fun d => embed d.content) ∧
      i1.capacity = newCapacity s kb docs.length ∧
      cm1 = cmWrites now (oldPoints s kb).length
              (docs.zip (docs.map (fun d => embed d.content))) (oldCm s kb) := by
  cases hidx : mapLookup s.indices kb with
  | none =>
    have hins := insertAll_eq now (docs.zip (docs.map (fun d => embed d.content)))
      { dim := s.dims, capacity := max (docs.length + 256) 1024,
        points := [], ef := s.efSearch }
      ((mapLookup s.chunkMaps kb).getD []) 0 (by simp) (by simp)
    refine ⟨{ dim := s.dims, capacity := max (docs.length + 256) 1024,
              points := docs.map (fun d => embed d.content), ef := s.efSearch },
            cmWrites now 0 (docs.zip (docs.map (fun d => embed d.content)))
              ((mapLookup s.chunkMaps kb).getD []),
            ?_, ?_, ?_, ?_⟩
    · simp only [addDocumentsToKB, hidx]
      simp only [List.length_nil]
      rw [hins]
      simp [zip_map_snd]
    · simp [oldPoints, hidx]
    · simp [newCapacity, hidx]
    · simp [oldCm, oldPoints, hidx]
  | some i =>
    by_cases hgrow : i.capacity < i.points.length + docs.length
    · have hins := insertAll_eq now (docs.zip (docs.map (fun d => embed d.content)))
        { i with capacity := max (i.points.length + docs.length + 256) (i.capacity * 3 / 2) }
        ((mapLookup s.chunkMaps kb).getD []) i.points.length (by simp) (by simp)
      refine ⟨{ dim := i.dim,
                capacity := max (i.points.length + docs.length + 256) (i.capacity * 3 / 2),
                points := i.points ++ docs.map (fun d => embed d.content), ef := i.ef },
              cmWrites now i.points.length (docs.zip (docs.map (fun d => embed d.content)))
                ((mapLookup s.chunkMaps kb).getD []),
              ?_, ?_, ?_, ?_⟩
      · simp only [addDocumentsToKB, hidx, List.length_map]
        rw [if_pos hgrow]
        rw [hins]
        simp [zip_map_snd]
      · simp [oldPoints, hidx]
      · simp [newCapacity, hidx, hgrow]
      · simp [oldCm, oldPoints, hidx]
    · have hins := insertAll_eq now (docs.zip (docs.map (fun d => embed d.content)))
        i ((mapLookup s.chunkMaps kb).getD []) i.points.length rfl (by simp; omega)
      refine ⟨{ dim := i.dim, capacity := i.capacity,
                points := i.points ++ docs.map (fun d => embed d.content), ef := i.ef },
              cmWrites now i.points.length (docs.zip (docs.map (fun d => embed d.content)))
                ((mapLookup s.chunkMaps kb).getD []),
              ?_, ?_, ?_, ?_⟩
      · simp only [addDocumentsToKB, hidx, List.length_map]
        rw [if_neg hgrow]
        rw [hins]
        simp [zip_map_snd]
      · simp [oldPoints, hidx]
      · simp [newCapacity, hidx, hgrow]
      · simp [oldCm, oldPoints, hidx]

theorem addKB_aligned {embed : String → Vec} {now : Nat} {kb : String}
    {docs : List Doc} {s s' : RAGState} (hal : AllAligned s)
    (hs : addDocumentsToKB embed now kb docs s = some s') :
    AllAligned s' ∧
    (mapLookup s'.indices kb).map (fun i => i.points.length) =
      some ((oldPoints s kb).length + docs.length) := by
  obtain ⟨i1, cm1, heq, hpts, hcap, hcm⟩ := addKB_spec embed now kb docs s
  rw [heq] at hs
  have hs' : s' = _ := (Option.some.inj hs).symm
  subst hs'
  have hkeysOld : ∀ p ∈ oldCm s kb, p.1 < (oldPoints s kb).length := by
    intro p hp
    exact (hal kb p.1).mp (List.mem_map_of_mem Prod.fst hp)
  have hcm' : cm1 = oldCm s kb ++
      chunkEntries now (oldPoints s kb).length
        (docs.zip (docs.map (fun d => embed d.content))) := by
    rw [hcm]
    exact cmWrites_append now _ _ _ hkeysOld
  have hlen1 : i1.points.length = (oldPoints s kb).length + docs.length := by
    rw [hpts]
    simp
  constructor
  · intro kb' j
    by_cases hk : kb' = kb
    · subst hk
      have e1 : oldCm { s with
          indices := mapSet s.indices kb' i1
          chunkMaps := mapSet s.chunkMaps kb' cm1
          disk := { hnsw := mapSet s.disk.hnsw kb' i1
                    chunks := mapSet s.disk.chunks kb' (ChunkFile.valid cm1) } } kb' = cm1 := by
        simp [oldCm, mapLookup_set_self]
      have e2 : oldPoints { s with
          indices := mapSet s.indices kb' i1
          chunkMaps := mapSet s.chunkMaps kb' cm1
          disk := { hnsw := mapSet s.disk.hnsw kb' i1
                    chunks := mapSet s.disk.chunks kb' (ChunkFile.valid cm1) } } kb' = i1.points := by
        simp [oldPoints, mapLookup_set_self]
      rw [e1, e2, hcm', hlen1]
      have hmem := chunkEntries_mem_keys now
        (docs.zip (docs.map (fun d => embed d.content))) (oldPoints s kb').length j
      have hziplen : (docs.zip (docs.map (fun d => embed d.content))).length = docs.length := by
        simp
      rw [hziplen] at hmem
      have holdkeys := hal kb' j
      simp only [List.map_append, List.mem_append]
      rw [hmem, holdkeys]
      omega
    · have hk' : kb ≠ kb' := fun hh => hk hh.symm
      have e1 : oldCm { s with
          indices := mapSet s.indices kb i1
          chunkMaps := mapSet s.chunkMaps kb cm1
          disk := { hnsw := mapSet s.disk.hnsw kb i1
                    chunks := mapSet s.disk.chunks kb (ChunkFile.valid cm1) } } kb' = oldCm s kb' := by
        simp [oldCm, mapLookup_set_other _ _ _ _ hk']
      have e2 : oldPoints { s with
          indices := mapSet s.indices kb i1
          chunkMaps := mapSet s.chunkMaps kb cm1
          disk := { hnsw := mapSet s.disk.hnsw kb i1
                    chunks := mapSet s.disk.chunks kb (ChunkFile.valid cm1) } } kb' = oldPoints s kb' := by
        simp [oldPoints, mapLookup_set_other _ _ _ _ hk']
      rw [e1, e2]
      exact hal kb' j
  · simp [mapLookup_set_self, hlen1]

/-! ## The index-shape invariant and reachability -/

theorem newCapacity_ge (s : RAGState) (kb : String) (n : Nat) :
    (oldPoints s kb).length + n ≤ newCapacity s kb n := by
  unfold newCapacity oldPoints
  cases mapLookup s.indices kb with
  | none => simp
  | some i =>
    dsimp only
    split_ifs <;> omega

theorem getOrLoadIndex_spec (s : RAGState) (kb : String) (hinv : IndexInv s) :
    IndexInv (getOrLoadIndex s kb).2 ∧
    (getOrLoadIndex s kb).2.disk = s.disk ∧
    ∀ i, (getOrLoadIndex s kb).1 = some i → hnswOk i := by
  unfold getOrLoadIndex
  cases hmem : mapLookup s.indices kb with
  | some i =>
    refine ⟨hinv, rfl, ?_⟩
    intro j hj
    have : i = j := Option.some.inj hj
    subst this
    exact hinv.1 (kb, i) (mapLookup_mem hmem)
  | none =>
    cases hla : loadAttempt s kb with
    | error e => exact ⟨hinv, rfl, fun i hi => by simp at hi⟩
    | ok pair =>
      obtain ⟨i, m⟩ := pair
      have hok : hnswOk i := by
        unfold loadAttempt at hla
        cases hd : mapLookup s.disk.hnsw kb with
        | none => rw [hd] at hla; simp at hla
        | some stored =>
          rw [hd] at hla
          cases hc : mapLookup s.disk.chunks kb with
          | none => rw [hc] at hla; simp at hla
          | some file =>
            rw [hc] at hla
            cases file with
            | malformed => simp at hla
            | valid m' =>
              simp at hla
              have hi : i = { stored with ef := s.efSearch } := hla.1.symm
              have hstored := hinv.2 (kb, stored) (mapLookup_mem hd)
              rw [hi]
              exact hstored
      refine ⟨⟨mapSet_forall hinv.1 hok, hinv.2⟩, rfl, ?_⟩
      intro j hj
      have : i = j := Option.some.inj hj
      subst this
      exact hok

theorem searchRun_inv {embed : String → Vec} {knn : HNSW → Vec → Nat → List (Nat × ℚ)}
    {now dur : Nat} {opts : SearchOptions} {s : RAGState} (hinv : IndexInv s) :
    IndexInv (searchRun embed knn now dur opts s).state := by
  rcases hcg : cacheGet s.cache
      { kb := opts.knowledgeBase, queryVector := embed opts.query, k := kDefault opts.k } now
    with ⟨ores, c'⟩
  have hinv1 : IndexInv { s with cache := c' } := hinv
  cases ores with
  | some cached =>
    simp only [searchRun]
    rw [hcg]
    exact hinv
  | none =>
    rcases hload : getOrLoadIndex { s with cache := c' } opts.knowledgeBase with ⟨oidx, s2⟩
    have hspec := getOrLoadIndex_spec { s with cache := c' } opts.knowledgeBase hinv1
    rw [hload] at hspec
    cases oidx with
    | none =>
      simp only [searchRun]
      rw [hcg]
      dsimp only
      rw [hload]
      exact hspec.1
    | some index =>
      simp only [searchRun]
      rw [hcg]
      dsimp only
      rw [hload]
      exact hspec.1

theorem groupStep_nonempty (docs : List Doc) :
    ∀ (acc : List (String × List Doc)), (∀ p ∈ acc, p.2 ≠ []) →
      ∀ p ∈ docs.foldl
        (fun acc d =>
          mapSet acc d.knowledgeBase ((mapLookup acc d.knowledgeBase).getD [] ++ [d])) acc,
        p.2 ≠ [] := by
  induction docs with
  | nil =>
    intro acc h
    simpa using h
  | cons d rest ih =>
    intro acc h
    simp only [List.foldl_cons]
    apply ih
    intro p hp
    rcases mem_mapSet hp with h' | h'
    · exact h p h'
    · rw [h']
      simp

theorem groupDocs_nonempty (docs : List Doc) : ∀ p ∈ groupDocs docs, p.2 ≠ [] := by
  unfold groupDocs
  exact groupStep_nonempty docs [] (by simp)

theorem addKB_inv {embed : String → Vec} {now : Nat} {kb : String} {docs : List Doc}
    {s s' : RAGState} (hne : docs ≠ []) (hinv : IndexInv s)
    (hs : addDocumentsToKB embed now kb docs s = some s') : IndexInv s' := by
  obtain ⟨i1, cm1, heq, hpts, hcap, hcm⟩ := addKB_spec embed now kb docs s
  rw [heq] at hs
  have hs' : s' = _ := (Option.some.inj hs).symm
  subst hs'
  have hok : hnswOk i1 := by
    constructor
    · rw [hpts]
      simp
      have : docs.length ≠ 0 := fun h => hne (List.length_eq_zero.mp h)
      omega
    · rw [hpts, hcap]
      simp
      exact newCapacity_ge s kb docs.length
  exact ⟨mapSet_forall hinv.1 hok, mapSet_forall hinv.2 hok⟩

theorem foldAdd_inv (embed : String → Vec) (now : Nat) (groups : List (String × List Doc)) :
    ∀ {s s' : RAGState}, (∀ p ∈ groups, p.2 ≠ []) → IndexInv s →
      groups.foldlM (fun st p => addDocumentsToKB embed now p.1 p.2 st) s = some s' →
      IndexInv s' := by
  induction groups with
  | nil =>
    intro s s' _ hinv h
    simp at h
    rw [← h]
    exact hinv
  | cons g rest ih =>
    intro s s' hne hinv h
    rw [List.foldlM_cons] at h
    cases ha : addDocumentsToKB embed now g.1 g.2 s with
    | none => rw [ha] at h; simp at h
    | some s1 =>
      rw [ha] at h
      have h' : rest.foldlM (fun st p => addDocumentsToKB embed now p.1 p.2 st) s1 = some s' := h
      exact ih (fun p hp => hne p (by simp [hp]))
        (addKB_inv (hne g (by simp)) hinv ha) h'

theorem addDocuments_inv {embed : String → Vec} {now : Nat} {docs : List Doc}
    {s s' : RAGState} (hinv : IndexInv s)
    (hs : addDocuments embed now docs s = some s') : IndexInv s' := by
  unfold addDocuments at hs
  by_cases hd : docs.isEmpty
  · rw [if_pos hd] at hs
    rw [← Option.some.inj hs]
    exact hinv
  · rw [if_neg hd] at hs
    exact foldAdd_inv embed now (groupDocs docs) (groupDocs_nonempty docs) hinv hs

theorem updateDocument_inv {embed : String → Vec} {now : Nat} {id : String}
    {patch : DocPatch} {s s' : RAGState} (hinv : IndexInv s)
    (hs : updateDocument embed now id patch s = some s') : IndexInv s' := by
  unfold updateDocument at hs
  cases hkb : patch.knowledgeBase with
  | none =>
    rw [hkb] at hs
    simp at hs
    rw [← hs]
    exact hinv
  | some kb =>
    rw [hkb] at hs
    cases hct : patch.content with
    | none =>
      rw [hct] at hs
      simp at hs
      rw [← hs]
      exact hinv
    | some content =>
      rw [hct] at hs
      exact addDocuments_inv hinv hs

theorem removeKB_inv {name : String} {s : RAGState} (hinv : IndexInv s) :
    IndexInv (removeKnowledgeBase name s) := by
  unfold removeKnowledgeBase
  constructor
  · intro p hp
    exact hinv.1 p (mem_mapDelete hp)
  · intro p hp
    simp only [] at hp
    split_ifs at hp
    · exact hinv.2 p (mem_mapDelete hp)
    · exact hinv.2 p (mem_mapDelete hp)
    · exact hinv.2 p hp

theorem saveFold_inv (l : List (String × HNSW)) :
    ∀ (d : Disk), (∀ p ∈ l, hnswOk p.2) → (∀ p ∈ d.hnsw, hnswOk p.2) →
      ∀ p ∈ (l.foldl (fun d p => { d with hnsw := mapSet d.hnsw p.1 p.2 }) d).hnsw,
        hnswOk p.2 := by
  induction l with
  | nil =>
    intro d _ hd
    simpa using hd
  | cons q rest ih =>
    intro d hl hd
    simp only [List.foldl_cons]
    apply ih
    · intro p hp
      exact hl p (by simp [hp])
    · exact mapSet_forall hd (hl q (by simp))

theorem shutdown_inv {s : RAGState} (hinv : IndexInv s) : IndexInv (shutdown s) := by
  unfold shutdown
  constructor
  · intro p hp
    simp at hp
  · exact saveFold_inv s.indices s.disk hinv.1 hinv.2

/-- Inductive invariant: every reachable service state has only well-shaped
(nonempty, within-capacity) indices, in memory and on disk. -/
theorem reach_inv {s : RAGState} (h : Reachable s) : IndexInv s := by
  induction h with
  | init dims ef maxSize ttl =>
    constructor <;> intro p hp <;> simp [initState] at hp
  | config dims' ef' _ ih => exact ih
  | search embed knn now dur opts _ ih => exact searchRun_inv ih
  | add embed now docs _ hadd ih => exact addDocuments_inv ih hadd
  | update embed now id patch _ hupd ih => exact updateDocument_inv ih hupd
  | removeDoc id _ ih => exact ih
  | removeKB name _ ih => exact removeKB_inv ih
  | shut _ ih => exact shutdown_inv ih

/-! ## Helper lemmas for the claim theorems -/

theorem knnDemo_ok : KnnOk knnDemo := by
  intro i v k
  unfold knnDemo
  refine ⟨?_, ?_, ?_⟩
  · split_ifs with h1 h2
    · simp
    · simp
      omega
    · simp
      omega
  · split_ifs <;> decide
  · split_ifs <;> decide

theorem getOrLoadIndex_of_error {s : RAGState} {kb : String} {e : LoadErr}
    (hmem : mapLookup s.indices kb = none)
    (herr : loadAttempt s kb = .error e) :
    getOrLoadIndex s kb = (none, s) := by
  unfold getOrLoadIndex
  rw [hmem]
  dsimp only
  rw [herr]

theorem resultsShape_bounded_sorted (cm : List (Nat × Chunk)) (res : List (Nat × ℚ))
    (kcap : Nat) (th : ℚ)
    (hlen : res.length ≤ kcap)
    (hsort : (res.map Prod.snd).Sorted (· ≤ ·))
    (hpos : ∀ p ∈ res, 0 ≤ p.2) :
    ((res.map (toResult cm)).filter (fun r => th ≤ r.score)).length ≤ kcap ∧
    (((res.map (toResult cm)).filter (fun r => th ≤ r.score)).map RAGResult.score).Sorted
      (· ≥ ·) ∧
    ∀ r ∈ (res.map (toResult cm)).filter (fun r => th ≤ r.score), th ≤ r.score := by
  refine ⟨?_, ?_, ?_⟩
  · calc ((res.map (toResult cm)).filter (fun r => th ≤ r.score)).length
        ≤ (res.map (toResult cm)).length := List.length_filter_le _ _
      _ = res.length := List.length_map _ _
      _ ≤ kcap := hlen
  · have h1 : List.Pairwise (fun a b : Nat × ℚ => a.2 ≤ b.2) res :=
      (List.pairwise_map).mp hsort
    have h2 : List.Pairwise (fun a b : Nat × ℚ => similarity b.2 ≤ similarity a.2) res :=
      h1.imp_of_mem (fun ha hb hr => similarity_anti (hpos _ ha) hr)
    have h3 : List.Pairwise (fun a b : RAGResult => b.score ≤ a.score)
        (res.map (toResult cm)) := by
      rw [List.pairwise_map]
      refine h2.imp ?_
      intro a b h
      rw [toResult_score, toResult_score]
      exact h
    have h4 : List.Pairwise (fun a b : RAGResult => b.score ≤ a.score)
        ((res.map (toResult cm)).filter (fun r => decide (th ≤ r.score))) :=
      h3.filter _
    show List.Pairwise _ _
    rw [List.pairwise_map]
    exact h4
  · intro r hr
    have h := List.mem_filter.mp hr
    simpa using h.2

/-- The one-document state reached by `initialize` followed by
`addDocuments` of a single document. -/
theorem c8State_reachable : Reachable c8State :=
  Reachable.add embedDemo 0 [docDemo] (Reachable.init 1 150 100 60000)
    (show addDocuments embedDemo 0 [docDemo] demoInit = some c8State by decide)

/-! ## Claim theorems -/

/-- C1 (amended): every search call that is not answered from the cache
returns at most `kDefault k` results (the requested count, with an omitted
or zero `k` defaulting to 10), sorted by non-increasing score, every
returned score at least the call's threshold — provided the index honours
the `searchKnn` interface contract. -/
theorem c1_search_results_bounded_sorted (embed : String → Vec)
    (knn : HNSW → Vec → Nat → List (Nat × ℚ)) (now dur : Nat)
    (opts : SearchOptions) (s : RAGState)
    (hknn : KnnOk knn)
    (hmiss : (cacheGet s.cache
      { kb := opts.knowledgeBase, queryVector := embed opts.query,
        k := kDefault opts.k } now).1 = none) :
    (searchRun embed knn now dur opts s).results.length ≤ kDefault opts.k ∧
    ((searchRun embed knn now dur opts s).results.map RAGResult.score).Sorted (· ≥ ·) ∧
    ∀ r ∈ (searchRun embed knn now dur opts s).results,
      opts.similarityThreshold ≤ r.score := by
  rcases hcg : cacheGet s.cache
      { kb := opts.knowledgeBase, queryVector := embed opts.query,
        k := kDefault opts.k } now
    with ⟨ores, c'⟩
  cases ores with
  | some rr =>
    rw [hcg] at hmiss
    simp at hmiss
  | none =>
    rcases hload : getOrLoadIndex { s with cache := c' } opts.knowledgeBase with ⟨oidx, s2⟩
    cases oidx with
    | none =>
      have hres : (searchRun embed knn now dur opts s).results = [] := by
        simp only [searchRun]
        rw [hcg]
        dsimp only
        rw [hload]
      rw [hres]
      refine ⟨by simp, by constructor, by simp⟩
    | some index =>
      have hres : (searchRun embed knn now dur opts s).results =
          ((knn index (embed opts.query)
              (effK (kDefault opts.k) index.points.length index.capacity)).map
            (toResult ((mapLookup s2.chunkMaps opts.knowledgeBase).getD []))).filter
              (fun r => opts.similarityThreshold ≤ r.score) := by
        simp only [searchRun]
        rw [hcg]
        dsimp only
        rw [hload]
      rw [hres]
      obtain ⟨hlen, hsort, hpos⟩ := hknn index (embed opts.query)
        (effK (kDefault opts.k) index.points.length index.capacity)
      exact resultsShape_bounded_sorted _ _ _ _
        (hlen.trans (effK_le (kDefault_pos opts.k) _ _)) hsort hpos

theorem c1_witness :
    (searchRun embedDemo knnDemo 0 0 opts5 kbState).results.length ≤ kDefault opts5.k ∧
    ((searchRun embedDemo knnDemo 0 0 opts5 kbState).results.map RAGResult.score).Sorted
      (· ≥ ·) :=
  ⟨(c1_search_results_bounded_sorted embedDemo knnDemo 0 0 opts5 kbState knnDemo_ok
      (by decide)).1,
   (c1_search_results_bounded_sorted embedDemo knnDemo 0 0 opts5 kbState knnDemo_ok
      (by decide)).2.1⟩

/-- C1 counterexample: the cache key ignores the threshold.  A first search
(`threshold 0`) caches scores `[1, 1/2]`; a second identical query with
threshold `3/4` is served from the cache and returns the score `1/2 < 3/4`,
violating `score ≥ threshold`.  Moreover a call with requested `k = 0` is
treated as `k = 10` (`options.k || 10`) and returns 2 results, more than the
requested 0. -/
theorem c1_counterexample :
    optsTh.k = some 5 ∧ optsTh.similarityThreshold = 3 / 4 ∧
    ((searchRun embedDemo knnDemo 1 0 optsTh c1CacheState).results.map RAGResult.score)
      = [1, 1 / 2] ∧
    ¬ ((3 : ℚ) / 4 ≤ 1 / 2) ∧
    opts0.k = some 0 ∧
    (searchRun embedDemo knnDemo 0 0 opts0 kbState).results.length = 2 := by
  refine ⟨rfl, rfl, ?_, by norm_num, rfl, ?_⟩
  · norm_num [searchRun, kDefault, cacheGet, entryLookup, entryDelete, getOrLoadIndex,
      loadAttempt, mapLookup, effK, knnDemo, embedDemo, toResult, similarity,
      cacheSet, entrySet, recordSearchMetric, c1CacheState, kbState, demoIdx2, demoChunk0,
      demoChunk1, emptyCache, opts5, optsTh]
  · norm_num [searchRun, kDefault, cacheGet, entryLookup, entryDelete, getOrLoadIndex,
      loadAttempt, mapLookup, effK, knnDemo, embedDemo, toResult, similarity,
      cacheSet, entrySet, recordSearchMetric, kbState, demoIdx2, demoChunk0, demoChunk1,
      emptyCache, opts0]

/-- C2 (amended): when a knowledge base is not open in memory and its load
attempt throws — whether the files are missing or the chunk-map JSON is
malformed — `getOrLoadIndex` catches the error and reports the knowledge
base as absent (`null`) with the state unchanged; no `PersistenceError`
reaches the caller. -/
theorem c2_load_error_swallowed (s : RAGState) (kb : String) (e : LoadErr)
    (hmem : mapLookup s.indices kb = none)
    (herr : loadAttempt s kb = .error e) :
    getOrLoadIndex s kb = (none, s) := by
  unfold getOrLoadIndex
  rw [hmem]
  dsimp only
  rw [herr]

theorem c2_witness : getOrLoadIndex c2State "kb" = (none, c2State) :=
  c2_load_error_swallowed c2State "kb" .chunkJsonMalformed (by decide) (by rfl)

/-- C2 counterexample: with `kb.hnsw` present and `kb.chunks.json`
malformed, the load attempt fails with the malformed-JSON error, yet
`getOrLoadIndex` returns `null` with the state untouched — exactly the same
observable outcome as when no files exist at all.  No hard error is
raised. -/
theorem c2_counterexample :
    loadAttempt c2State "kb" = .error .chunkJsonMalformed ∧
    getOrLoadIndex c2State "kb" = (none, c2State) ∧
    getOrLoadIndex demoInit "kb" = (none, demoInit) := by
  refine ⟨by rfl, by decide, by decide⟩

/-- C3 (amended): after `removeKnowledgeBase(name)` the in-memory index and
chunk map are gone and no error is raised (the whole deletion is wrapped in
a swallowed `try`); the `<name>.hnsw` file never remains; the
`<name>.chunks.json` file is guaranteed deleted only when the `.hnsw` file
existed — if the first unlink fails because `.hnsw` is already missing, the
`catch` skips the chunks unlink and that file can survive; and a subsequent
search against `name` that is not answered from the cache returns the empty
list. -/
theorem c3_remove_knowledge_base (name : String) (s : RAGState) :
    mapLookup (removeKnowledgeBase name s).indices name = none ∧
    mapLookup (removeKnowledgeBase name s).chunkMaps name = none ∧
    mapLookup (removeKnowledgeBase name s).disk.hnsw name = none ∧
    ((mapLookup s.disk.hnsw name).isSome →
      mapLookup (removeKnowledgeBase name s).disk.chunks name = none) ∧
    (∀ (embed : String → Vec) (knn : HNSW → Vec → Nat → List (Nat × ℚ))
        (now dur : Nat) (opts : SearchOptions), opts.knowledgeBase = name →
      (cacheGet (removeKnowledgeBase name s).cache
        { kb := opts.knowledgeBase, queryVector := embed opts.query,
          k := kDefault opts.k } now).1 = none →
      (searchRun embed knn now dur opts (removeKnowledgeBase name s)).results = []) := by
  have h1 : mapLookup (removeKnowledgeBase name s).indices name = none :=
    mapLookup_delete_self _ _
  have h2 : mapLookup (removeKnowledgeBase name s).chunkMaps name = none :=
    mapLookup_delete_self _ _
  have h3 : mapLookup (removeKnowledgeBase name s).disk.hnsw name = none := by
    unfold removeKnowledgeBase
    dsimp only
    split_ifs with ha hb
    · exact mapLookup_delete_self _ _
    · exact mapLookup_delete_self _ _
    · exact Option.not_isSome_iff_eq_none.mp ha
  have h4 : (mapLookup s.disk.hnsw name).isSome →
      mapLookup (removeKnowledgeBase name s).disk.chunks name = none := by
    intro hsome
    unfold removeKnowledgeBase
    dsimp only
    rw [if_pos hsome]
    by_cases hb : (mapLookup s.disk.chunks name).isSome
    · rw [if_pos hb]
      exact mapLookup_delete_self _ _
    · rw [if_neg hb]
      exact Option.not_isSome_iff_eq_none.mp hb
  refine ⟨h1, h2, h3, h4, ?_⟩
  intro embed knn now dur opts hkb hmiss
  subst hkb
  rcases hcg : cacheGet (removeKnowledgeBase opts.knowledgeBase s).cache
      { kb := opts.knowledgeBase, queryVector := embed opts.query,
        k := kDefault opts.k } now
    with ⟨ores, c'⟩
  cases ores with
  | some rr =>
    rw [hcg] at hmiss
    simp at hmiss
  | none =>
    have hmem : mapLookup
        ({ removeKnowledgeBase opts.knowledgeBase s with cache := c' }).indices
        opts.knowledgeBase = none := h1
    have herr : loadAttempt
        { removeKnowledgeBase opts.knowledgeBase s with cache := c' }
        opts.knowledgeBase = .error .indexFileMissing := by
      unfold loadAttempt
      have hd : mapLookup
          ({ removeKnowledgeBase opts.knowledgeBase s with cache := c' }).disk.hnsw
          opts.knowledgeBase = none := h3
      rw [hd]
    have hload := getOrLoadIndex_of_error hmem herr
    simp only [searchRun]
    rw [hcg]
    dsimp only
    rw [hload]

theorem c3_witness :
    mapLookup (removeKnowledgeBase "kb" kbState).indices "kb" = none ∧
    mapLookup (removeKnowledgeBase "kb" kbState).chunkMaps "kb" = none ∧
    mapLookup (removeKnowledgeBase "kb" kbState).disk.hnsw "kb" = none ∧
    mapLookup (removeKnowledgeBase "kb" kbState).disk.chunks "kb" = none ∧
    (searchRun embedDemo knnDemo 0 0 opts5 (removeKnowledgeBase "kb" kbState)).results
      = [] := by
  have h := c3_remove_knowledge_base "kb" kbState
  exact ⟨h.1, h.2.1, h.2.2.1, h.2.2.2.1 (by decide),
    h.2.2.2.2 embedDemo knnDemo 0 0 opts5 rfl (by decide)⟩

/-- C3 counterexample: (a) with `kb.hnsw` already missing but
`kb.chunks.json` present, `removeKnowledgeBase` leaves the chunks file on
disk — the failed first unlink short-circuits the second; (b) the search
cache is not cleared, so a search against the removed knowledge base within
the TTL window still returns the two cached results instead of the empty
list. -/
theorem c3_counterexample :
    mapLookup (removeKnowledgeBase "kb" c3StateA).disk.chunks "kb" =
      some (ChunkFile.valid [(0, demoChunk0)]) ∧
    (searchRun embedDemo knnDemo 1 0 opts5 (removeKnowledgeBase "kb" c1CacheState)).results.length
      = 2 := by
  refine ⟨by decide, ?_⟩
  norm_num [searchRun, kDefault, cacheGet, entryLookup, entryDelete, getOrLoadIndex,
    loadAttempt, mapLookup, mapDelete, effK, knnDemo, embedDemo, toResult, similarity,
    cacheSet, entrySet, recordSearchMetric, removeKnowledgeBase, c1CacheState, kbState,
    demoIdx2, demoChunk0, demoChunk1, emptyCache, opts5]

/-- C4: a successful `addDocumentsToKB` keeps every knowledge base's chunk
map aligned — its ordinal key set is exactly `{0, …, currentCount − 1}` of
the matching index — and inserting `n` documents into a fresh knowledge base
leaves it with exactly `n` points (so its key set is `{0, …, n − 1}`). -/
theorem c4_ordinal_alignment (embed : String → Vec) (now : Nat) (kb : String)
    (docs : List Doc) (s s' : RAGState)
    (hal : AllAligned s)
    (hs : addDocumentsToKB embed now kb docs s = some s') :
    AllAligned s' ∧
    (mapLookup s.indices kb = none →
      (mapLookup s'.indices kb).map (fun i => i.points.length) = some docs.length) := by
  obtain ⟨hal', hlen⟩ := addKB_aligned hal hs
  refine ⟨hal', ?_⟩
  intro hnone
  rw [hlen]
  have : (oldPoints s kb).length = 0 := by
    simp [oldPoints, hnone]
  rw [this]
  simp

theorem c4_witness :
    ((0 ∈ (oldCm c4State "kb").map Prod.fst ↔ 0 < (oldPoints c4State "kb").length) ∧
      (1 ∈ (oldCm c4State "kb").map Prod.fst ↔ 1 < (oldPoints c4State "kb").length)) ∧
    (mapLookup c4State.indices "kb").map (fun i => i.points.length) = some 1 := by
  have hal : AllAligned demoInit := by
    intro kb j
    simp [oldCm, oldPoints, demoInit, initState, mapLookup]
  have h := c4_ordinal_alignment embedDemo 0 "kb" [docDemo] demoInit c4State hal (by decide)
  exact ⟨⟨h.1 "kb" 0, h.1 "kb" 1⟩, h.2 (by decide)⟩

/-- C5: with the cache at `maxSize`, a successful `get` leaves the entry
order untouched, and a subsequent `set` of a fresh key evicts exactly the
earliest-inserted entry (the head), keeping the rest in order — insertion
order, not recency, decides the victim. -/
theorem c5_fifo_eviction (c : SearchCache) (key : CacheKey) (r : List RAGResult)
    (tread : Nat) (newKey : CacheKey) (newRes : List RAGResult) (now : Nat)
    (hhit : (cacheGet c key tread).1 = some r)
    (hfull : c.entries.length = c.maxSize)
    (hfresh : ∀ e ∈ c.entries, e.key ≠ newKey) :
    ((cacheGet c key tread).2).entries = c.entries ∧
    (cacheSet ((cacheGet c key tread).2) newKey newRes now).entries =
      c.entries.tail ++ [{ key := newKey, result := newRes, timestamp := now }] := by
  have hstate : (cacheGet c key tread).2 = { c with hits := c.hits + 1 } := by
    rcases hget : cacheGet c key tread with ⟨ores, c2⟩
    cases ores with
    | none =>
      rw [hget] at hhit
      simp at hhit
    | some rr =>
      have h := cacheGet_hit_state hget
      simp [h]
  refine ⟨by rw [hstate], ?_⟩
  rw [hstate]
  unfold cacheSet
  dsimp only
  rw [if_pos (Nat.le_of_eq hfull.symm)]
  have hfresh' : ∀ e ∈ c.entries.tail, e.key ≠ newKey :=
    fun e he => hfresh e (List.mem_of_mem_tail he)
  exact entrySet_fresh _ _ _ _ hfresh'

theorem c5_witness :
    ((cacheGet cacheDemo keyA 0).2).entries = cacheDemo.entries ∧
    (cacheSet ((cacheGet cacheDemo keyA 0).2) keyC [resA] 1).entries =
      cacheDemo.entries.tail ++ [{ key := keyC, result := [resA], timestamp := 1 }] :=
  c5_fifo_eviction cacheDemo keyA [resA] 0 keyC [resA] 1 (by decide) (by decide) (by decide)

/-- C6: every `addDocumentsToKB` batch succeeds with the batch's vectors
appended in order after the existing points (none lost, none misordered);
a previously-unseen knowledge base is created with capacity
`max(n + 256, 1024)`, and an existing one is resized — exactly once, before
any insertion — to `max(currentCount + n + 256, floor(capacity * 1.5))`
precisely when `currentCount + n` exceeds the capacity. -/
theorem c6_capacity_policy (embed : String → Vec) (now : Nat) (kb : String)
    (docs : List Doc) (s : RAGState) :
    ∃ s' i1, addDocumentsToKB embed now kb docs s = some s' ∧
      mapLookup s'.indices kb = some i1 ∧
      i1.points = oldPoints s kb ++ docs.map (fun d => embed d.content) ∧
      (mapLookup s.indices kb = none → i1.capacity = max (docs.length + 256) 1024) ∧
      (∀ i0, mapLookup s.indices kb = some i0 →
        i1.capacity =
          if i0.capacity < i0.points.length + docs.length then
            max (i0.points.length + docs.length + 256) (i0.capacity * 3 / 2)
          else i0.capacity) := by
  obtain ⟨i1, cm1, heq, hpts, hcap, hcm⟩ := addKB_spec embed now kb docs s
  refine ⟨_, i1, heq, ?_, hpts, ?_, ?_⟩
  · exact mapLookup_set_self s.indices kb i1
  · intro hnone
    rw [hcap]
    simp [newCapacity, hnone]
  · intro i0 h0
    rw [hcap]
    simp [newCapacity, h0]

theorem c6_witness :
    (mapLookup c4State.indices "kb").map HNSW.capacity = some 1024 ∧
    (mapLookup ((addDocumentsToKB embedDemo 0 "kb" [docX] smallState).getD
        smallState).indices "kb").map HNSW.capacity = some 259 := by
  constructor
  · obtain ⟨s', i1, h1, h2, h3, h4, h5⟩ := c6_capacity_policy embedDemo 0 "kb" [docDemo] demoInit
    have hs : c4State = s' := by
      unfold c4State
      rw [h1]
      rfl
    rw [hs, h2]
    have hc := h4 (by decide)
    show some i1.capacity = some 1024
    rw [hc]
    decide
  · obtain ⟨s', i1, h1, h2, h3, h4, h5⟩ := c6_capacity_policy embedDemo 0 "kb" [docX] smallState
    have hs : (addDocumentsToKB embedDemo 0 "kb" [docX] smallState).getD smallState = s' := by
      rw [h1]
      rfl
    rw [hs, h2]
    have hc := h5 smallIdx (by decide)
    show some i1.capacity = some 259
    rw [hc]
    decide

/-- C7: for every neighbor with distance `d ≥ 0`, the search result built
from it has score exactly `1 / (1 + d)`; distance 0 maps to similarity 1,
the score lies in `[0, 1]`, and the score is strictly decreasing in the
distance. -/
theorem c7_similarity_scoring (cm : List (Nat × Chunk)) (i : Nat) (d e : ℚ)
    (hd : 0 ≤ d) (hde : d < e) :
    (toResult cm (i, d)).score = 1 / (1 + d) ∧
    similarity 0 = 1 ∧
    0 < similarity d ∧ similarity d ≤ 1 ∧
    similarity e < similarity d := by
  refine ⟨?_, ?_, similarity_pos hd, similarity_le_one hd, similarity_strictAnti hd hde⟩
  · rw [toResult_score]
    rfl
  · unfold similarity
    norm_num

theorem c7_witness :
    (toResult [] (0, 1)).score = 1 / (1 + 1) ∧
    similarity 0 = 1 ∧
    0 < similarity 1 ∧ similarity 1 ≤ 1 ∧
    similarity 2 < similarity 1 :=
  c7_similarity_scoring [] 0 1 2 (by norm_num) (by norm_num)

/-- C8 (amended): in every reachable state, whenever `search` invokes
`index.searchKnn`, the count it passes equals
`clamp(kInput, 1, min(currentCount, capacity))`, where `kInput` is the
requested `k` after the `options.k || 10` defaulting — and the queried index
always holds at least one point (the empty knowledge base is resolved to an
empty result upstream, as the absent case). -/
theorem c8_effective_k_clamped (embed : String → Vec)
    (knn : HNSW → Vec → Nat → List (Nat × ℚ)) (now dur : Nat)
    (opts : SearchOptions) (s : RAGState) (hreach : Reachable s)
    (eK cnt cap : Nat)
    (hq : (searchRun embed knn now dur opts s).queried = some (eK, cnt, cap)) :
    1 ≤ cnt ∧ eK = max 1 (min (kDefault opts.k) (min cnt cap)) := by
  have hinv : IndexInv s := reach_inv hreach
  rcases hcg : cacheGet s.cache
      { kb := opts.knowledgeBase, queryVector := embed opts.query, k := kDefault opts.k } now
    with ⟨ores, c'⟩
  cases ores with
  | some rr =>
    have hq0 : (searchRun embed knn now dur opts s).queried = none := by
      simp only [searchRun]
      rw [hcg]
    rw [hq0] at hq
    simp at hq
  | none =>
    rcases hload : getOrLoadIndex { s with cache := c' } opts.knowledgeBase with ⟨oidx, s2⟩
    have hspec := getOrLoadIndex_spec { s with cache := c' } opts.knowledgeBase
      (hinv : IndexInv { s with cache := c' })
    rw [hload] at hspec
    cases oidx with
    | none =>
      have hq0 : (searchRun embed knn now dur opts s).queried = none := by
        simp only [searchRun]
        rw [hcg]
        dsimp only
        rw [hload]
      rw [hq0] at hq
      simp at hq
    | some index =>
      have hq1 : (searchRun embed knn now dur opts s).queried =
          some (effK (kDefault opts.k) index.points.length index.capacity,
                index.points.length, index.capacity) := by
        simp only [searchRun]
        rw [hcg]
        dsimp only
        rw [hload]
      rw [hq1] at hq
      simp only [Option.some.injEq, Prod.mk.injEq] at hq
      obtain ⟨he, hcnt, hcap⟩ := hq
      subst he
      subst hcnt
      subst hcap
      have hok : hnswOk index := hspec.2.2 index rfl
      exact ⟨hok.1, effK_clamp (kDefault_pos opts.k) hok.2⟩

theorem c8_witness :
    1 ≤ 1 ∧ 1 = max 1 (min (kDefault (some 3)) (min 1 1024)) := by
  have hq : (searchRun embedDemo knnDemo 5 0 opts3 c8State).queried = some (1, 1, 1024) := by
    rfl
  exact c8_effective_k_clamped embedDemo knnDemo 5 0 opts3 c8State c8State_reachable
    1 1 1024 hq

/-- C8 counterexample: in the two-point state, a call with explicit
requested `k = 0` passes `2` to the index query (the falsy `k` is replaced
by the default 10 before clamping), while the claim's formula
`clamp(requestedK, 1, min(count, capacity)) = clamp(0, 1, 2)` yields `1`. -/
theorem c8_counterexample :
    opts0.k = some 0 ∧
    (searchRun embedDemo knnDemo 0 0 opts0 kbState).queried = some (2, 2, 1024) ∧
    max 1 (min 0 (min 2 1024)) = 1 ∧ (2 : Nat) ≠ 1 :=
  ⟨rfl, by rfl, by decide, by decide⟩

/-- C9: `removeDocument(id)` leaves the entire service state unchanged
(in-memory tables, cache, metrics and persisted files); consequently
`updateDocument(id, partial)` with a knowledge base and content appends a
fresh chunk carrying that id at the next ordinal while every previously
stored chunk remains — a duplicate, not a replacement. -/
theorem c9_remove_noop_update_duplicates (id : String) (s : RAGState)
    (embed : String → Vec) (now : Nat) (patch : DocPatch) (kb content : String)
    (hkb : patch.knowledgeBase = some kb) (hct : patch.content = some content)
    (hid : id ≠ "")
    (hkeys : ∀ p ∈ oldCm s kb, p.1 < (oldPoints s kb).length) :
    removeDocument id s = s ∧
    ∃ s', updateDocument embed now id patch s = some s' ∧
      mapLookup s'.chunkMaps kb =
        some (oldCm s kb ++
          [((oldPoints s kb).length,
            mkChunk now (oldPoints s kb).length
              { id := id, content := content, knowledgeBase := kb,
                metadata := patch.metadata })]) ∧
      (mkChunk now (oldPoints s kb).length
        { id := id, content := content, knowledgeBase := kb,
          metadata := patch.metadata }).id = id ∧
      (mkChunk now (oldPoints s kb).length
        { id := id, content := content, knowledgeBase := kb,
          metadata := patch.metadata }).text = content := by
  obtain ⟨i1, cm1, heq, hpts, hcap, hcm⟩ := addKB_spec embed now kb
    [{ id := id, content := content, knowledgeBase := kb, metadata := patch.metadata }] s
  have hupd : updateDocument embed now id patch s =
      some { s with
        indices := mapSet s.indices kb i1
        chunkMaps := mapSet s.chunkMaps kb cm1
        disk := { hnsw := mapSet s.disk.hnsw kb i1
                  chunks := mapSet s.disk.chunks kb (ChunkFile.valid cm1) } } := by
    unfold updateDocument
    rw [hkb]
    dsimp only
    rw [hct]
    dsimp only [removeDocument]
    unfold addDocuments
    rw [if_neg (by simp)]
    have hg : groupDocs
        [{ id := id, content := content, knowledgeBase := kb, metadata := patch.metadata }] =
        [(kb, [{ id := id, content := content, knowledgeBase := kb,
                 metadata := patch.metadata }])] := by
      simp [groupDocs, mapSet, mapLookup]
    rw [hg]
    rw [List.foldlM_cons]
    dsimp only
    rw [heq]
    rfl
  have hfresh : ∀ p ∈ oldCm s kb, p.1 ≠ (oldPoints s kb).length :=
    fun p hp => Nat.ne_of_lt (hkeys p hp)
  have hcm1 : cm1 = oldCm s kb ++
      [((oldPoints s kb).length,
        mkChunk now (oldPoints s kb).length
          { id := id, content := content, knowledgeBase := kb,
            metadata := patch.metadata })] := by
    rw [hcm]
    dsimp only [List.zip, List.zipWith, List.map, cmWrites]
    exact mapSet_fresh _ _ _ hfresh
  refine ⟨rfl, _, hupd, ?_, ?_, ?_⟩
  · rw [mapLookup_set_self, hcm1]
  · simp [mkChunk, hid]
  · rfl

theorem c9_witness :
    removeDocument "dX" kbState = kbState ∧
    mapLookup ((updateDocument embedDemo 7 "dX" patchDemo kbState).getD kbState).chunkMaps
        "kb" =
      some (oldCm kbState "kb" ++ [(2, mkChunk 7 2 docX)]) := by
  obtain ⟨h1, s', h2, h3, h4, h5⟩ :=
    c9_remove_noop_update_duplicates "dX" kbState embedDemo 7 patchDemo "kb" "new"
      rfl rfl (by decide) (by decide)
  refine ⟨h1, ?_⟩
  rw [h2]
  exact h3

/-- C10: a search answered from the cache returns the cached result list and
leaves `totalSearches` and the running average latency — the metrics
`getStatus` reports — unchanged; only cache-miss searches are counted. -/
theorem c10_cache_hit_metrics (embed : String → Vec)
    (knn : HNSW → Vec → Nat → List (Nat × ℚ)) (now dur : Nat)
    (opts : SearchOptions) (s : RAGState) (r : List RAGResult) (c' : SearchCache)
    (hhit : cacheGet s.cache
      { kb := opts.knowledgeBase, queryVector := embed opts.query, k := kDefault opts.k } now
      = (some r, c')) :
    (searchRun embed knn now dur opts s).results = r ∧
    (getStatus (searchRun embed knn now dur opts s).state).totalSearches =
      (getStatus s).totalSearches ∧
    (getStatus (searchRun embed knn now dur opts s).state).avgSearchTime =
      (getStatus s).avgSearchTime := by
  simp only [searchRun]
  rw [hhit]
  exact ⟨rfl, rfl, rfl⟩

theorem c10_witness :
    (searchRun embedDemo knnDemo 0 0 opts5 c10State).results = [resA] ∧
    (getStatus (searchRun embedDemo knnDemo 0 0 opts5 c10State).state).totalSearches =
      (getStatus c10State).totalSearches ∧
    (getStatus (searchRun embedDemo knnDemo 0 0 opts5 c10State).state).avgSearchTime =
      (getStatus c10State).avgSearchTime :=
  c10_cache_hit_metrics embedDemo knnDemo 0 0 opts5 c10State [resA]
    { c10Cache with hits := 1 } (by decide)
